import Mathlib

/-!
Shallow embedding of the P2P-CI system: the directory server (`server.py`)
and the peer's document responder / fetch client (`peer.py`).

Python strings are modelled as Lean `String` / `List Char` (Python strings
are sequences of code points, indexed by code point, exactly like
`List Char`).  Python `int` is modelled as `Int`.  Runtime-supplied values
(timestamps, the OS banner, the file store) are passed as explicit
parameters.  The built-in string operations used by the source
(`str.replace`, `str.strip`, `str.split`, `str.splitlines`, `str.find`,
`int(...)`, `str.join`, `len(s.encode("utf-8"))`) are modelled by the
char-list functions below; `strip`/`split`/`int` are modelled over the
ASCII whitespace/digit repertoire the protocol uses.
-/

/-- ASCII whitespace, the characters `str.strip()` / `str.split()` remove
(modelled over the ASCII subset of Python's whitespace repertoire). -/
def isPyWS (c : Char) : Bool :=
  c = ' ' || c = '\t' || c = '\n' || c = '\r' || c = '\x0b' || c = '\x0c'

/-- Line-boundary characters recognised by `str.splitlines()`. -/
def isPyLineBreak (c : Char) : Bool :=
  c = '\n' || c = '\r' || c = '\x0b' || c = '\x0c' ||
  c = '\x1c' || c = '\x1d' || c = '\x1e' || c = '\u0085' ||
  c = '\u2028' || c = '\u2029'

/-- Model of `s.replace("\r\n", "\n")`: left-to-right, non-overlapping. -/
def replaceCRLF : List Char → List Char
  | [] => []
  | [c] => [c]
  | c1 :: c2 :: rest =>
    if c1 = '\r' ∧ c2 = '\n' then '\n' :: replaceCRLF rest
    else c1 :: replaceCRLF (c2 :: rest)

/-- Model of `s.strip()` (both ends). -/
def stripWS (l : List Char) : List Char :=
  ((l.dropWhile (fun c => isPyWS c)).reverse.dropWhile (fun c => isPyWS c)).reverse

/-- Model of `s.split('\n')`: splits at every newline, keeping empty pieces;
`"".split('\n') == ['']`. -/
def splitLines : List Char → List (List Char)
  | [] => [[]]
  | c :: rest =>
    if c = '\n' then [] :: splitLines rest
    else
      match splitLines rest with
      | [] => [[c]]
      | l :: ls => (c :: l) :: ls

/-- Accumulator worker for `splitWS`: `acc` holds the current word,
reversed. -/
def splitWSAux : List Char → List Char → List (List Char)
  | [], acc => if acc.isEmpty then [] else [acc.reverse]
  | c :: rest, acc =>
    if isPyWS c then
      if acc.isEmpty then splitWSAux rest []
      else acc.reverse :: splitWSAux rest []
    else splitWSAux rest (c :: acc)

/-- Model of `s.split()` with no argument: split on runs of whitespace, dropping
empty pieces. -/
def splitWS (l : List Char) : List (List Char) :=
  splitWSAux l []

/-- Model of `line.split(':', 1)` guarded by `':' in line`: `none` when the line has
no colon, otherwise the pieces before and after the first colon. -/
def splitColon1 : List Char → Option (List Char × List Char)
  | [] => none
  | c :: rest =>
    if c = ':' then some ([], rest)
    else (splitColon1 rest).map (fun kv => (c :: kv.1, kv.2))

/-- Model of `CRLF.join(lines)` on char lists. -/
def joinCRLFchars : List (List Char) → List Char
  | [] => []
  | [l] => l
  | l :: ls => l ++ '\r' :: '\n' :: joinCRLFchars ls

/-- Model of `CRLF.join(lines)` on strings. -/
def joinCRLFs : List String → String
  | [] => ""
  | [l] => l
  | l :: ls => l ++ "\r\n" ++ joinCRLFs ls

/-- Model of `s.find(pat)` (Python): index of the first occurrence of `pat`,
`none` for Python's `-1`. -/
def firstIdx (pat : List Char) : List Char → Option Nat
  | [] => if pat.isEmpty then some 0 else none
  | c :: rest =>
    if pat.isPrefixOf (c :: rest) then some 0
    else (firstIdx pat rest).map (fun i => i + 1)

/-- Model of `pat in s` (Python substring test). -/
def containsSub (pat l : List Char) : Bool :=
  (firstIdx pat l).isSome

/-- Model of `s.splitlines()[0]`: `none` models the `IndexError` raised on an empty
string, otherwise the prefix before the first line boundary. -/
def pySplitlinesHead (l : List Char) : Option (List Char) :=
  if l.isEmpty then none else some (l.takeWhile (fun c => !isPyLineBreak c))

/-- Value of an ASCII decimal digit, `none` for non-digits. -/
def pyDigit? (c : Char) : Option Nat :=
  if '0' ≤ c ∧ c ≤ '9' then some (c.toNat - ('0').toNat) else none

/-- Digit tail of a Python integer literal: digits with single internal
underscores (`1_0` is legal, `1__0`, `1_`, `_1` are not). -/
def digitsValU : Nat → List Char → Option Nat
  | acc, [] => some acc
  | acc, c :: rest =>
    if c = '_' then
      match rest with
      | [] => none
      | d :: rest2 =>
        match pyDigit? d with
        | some v => digitsValU (acc * 10 + v) rest2
        | none => none
    else
      match pyDigit? c with
      | some v => digitsValU (acc * 10 + v) rest
      | none => none

/-- Unsigned decimal literal body accepted by Python `int(...)`. -/
def parseNatU : List Char → Option Nat
  | [] => none
  | c :: rest =>
    match pyDigit? c with
    | some v => digitsValU v rest
    | none => none

/-- Python `int(s)` for decimal strings: optional surrounding whitespace,
optional sign, digits (ASCII model); `none` models `ValueError`. -/
def pyInt? (s : String) : Option Int :=
  match stripWS s.data with
  | '-' :: rest => (parseNatU rest).map (fun n => -(n : Int))
  | '+' :: rest => (parseNatU rest).map (fun n => (n : Int))
  | l => (parseNatU l).map (fun n => (n : Int))

/-- Model of `len(body.encode('utf-8'))`: UTF-8 byte length of a string. -/
def utf8Len (s : String) : Nat :=
  s.data.foldl (fun n c => n + c.utf8Size) 0

/-! ## Data model (`server.py`) -/

/-- The two registry collections of `P2PServer`: `peers` holds
`(peer_name, host, upload_port)` triples, `rfc_index` holds
`(rfc_num, title, peer_name, host, upload_port)` tuples.  New entries are
inserted with `insert(0, ...)`, i.e. prepended. -/
structure Registry where
  peers : List (String × String × Int)
  rfc_index : List (Int × String × String × String × Int)
  deriving DecidableEq

def emptyReg : Registry := ⟨[], []⟩

/-- A directory-server response before rendering: status code, phrase and
optional body (every `P2PServer` handler returns
`self._build_response(code, phrase, body)`). -/
structure Resp where
  code : Nat
  phrase : String
  body : String
  deriving DecidableEq

def PROTOCOL_VERSION : String := "PCP-CI/1.0"

def emptyS : String := ""

def badReq : Resp := ⟨400, "Bad Request", ""⟩

def resp505 : Resp := ⟨505, "PCP-CI Version Not Supported", ""⟩

def notFound404 : Resp := ⟨404, "Not Found", ""⟩

def hostKey : String := "Host"
def hostnameKey : String := "Hostname"
def portKey : String := "Port"
def titleKey : String := "Title"
def addM : String := "ADD"
def lookupM : String := "LOOKUP"
def listM : String := "LIST"
def getM : String := "GET"
def rfcTok : String := "RFC"

/-- Normalisation shared by `extract_headers` and `process_request`:
`request.replace("\r\n", "\n").strip().split('\n')`. -/
def pyLines (s : String) : List (List Char) :=
  splitLines (stripWS (replaceCRLF s.data))

/-- Model of `P2PServer.extract_headers`: `Key: Value` pairs of `lines[1:]`, in
order; a later binding of the same key overwrites an earlier one
(Python dict), which `hGet` models by taking the last binding. -/
def extract_headers (raw : String) : List (String × String) :=
  ((pyLines raw).drop 1).filterMap
    (fun l => (splitColon1 l).map
      (fun kv => (String.mk (stripWS kv.1), String.mk (stripWS kv.2))))

/-- Model of `headers.get(k)`: the last binding wins, as in a Python dict. -/
def hGet (hs : List (String × String)) (k : String) : Option String :=
  ((hs.filter (fun p => p.1 = k)).getLast?).map (fun p => p.2)

/-- Model of `k in headers`. -/
def hContains (hs : List (String × String)) (k : String) : Bool :=
  (hGet hs k).isSome

/-- Model of `a or b` for a possibly-missing string (`None` and `""` are falsy). -/
def pyOr (o : Option String) (d : String) : String :=
  match o with
  | some v => if v = emptyS then d else v
  | none => d

/-- Model of `"RFC {r} {t} {n} {h} {p}"`, the record line format used by
`handle_add`'s echo and the `handle_lookup` / `handle_list`
comprehensions. -/
def fmtRecord : Int × String × String × String × Int → String
  | (r, t, n, h, p) =>
    "RFC " ++ toString r ++ " " ++ t ++ " " ++ n ++ " " ++ h ++ " " ++ toString p

/-- Model of `P2PServer.register_peer`. -/
def register_peer (reg : Registry) (peer_name host : String) (port : Int) :
    Registry :=
  if (peer_name, host, port) ∈ reg.peers then reg
  else ⟨(peer_name, host, port) :: reg.peers, reg.rfc_index⟩

/-- Model of `P2PServer.remove_peer`. -/
def remove_peer (reg : Registry) (peer_name host : String) (port : Int) :
    Registry :=
  ⟨reg.peers.filter
      (fun q => !(q.1 = peer_name ∧ q.2.1 = host ∧ q.2.2 = port : Bool)),
    reg.rfc_index.filter
      (fun r => !(r.2.2.1 = peer_name ∧ r.2.2.2.1 = host ∧ r.2.2.2.2 = port : Bool))⟩

/-- Model of `P2PServer.handle_add`. -/
def handle_add (reg : Registry) (rfc_part : List String)
    (headers : List (String × String)) : Registry × Resp :=
  if rfc_part.length < 2 ∨ rfc_part.headD emptyS ≠ rfcTok then (reg, badReq)
  else
    match pyInt? (rfc_part.getD 1 emptyS) with
    | none => (reg, badReq)
    | some rfc_num =>
      let host := (hGet headers hostKey).getD emptyS
      let peer_name := pyOr (hGet headers hostnameKey) host
      let port := (hGet headers portKey).getD emptyS
      let title := (hGet headers titleKey).getD emptyS
      if host = emptyS ∨ port = emptyS ∨ title = emptyS ∨ peer_name = emptyS then
        (reg, badReq)
      else
        match pyInt? port with
        | none => (reg, badReq)
        | some port_num =>
          let peers' :=
            if (peer_name, host, port_num) ∈ reg.peers then reg.peers
            else (peer_name, host, port_num) :: reg.peers
          let record := (rfc_num, title, peer_name, host, port_num)
          let index' :=
            if record ∈ reg.rfc_index then reg.rfc_index
            else record :: reg.rfc_index
          (⟨peers', index'⟩, ⟨200, "OK", fmtRecord record⟩)

/-- Model of `P2PServer.handle_lookup` (read-only: it only takes the lock to read
`rfc_index`). -/
def handle_lookup (reg : Registry) (rfc_part : List String)
    (_headers : List (String × String)) : Resp :=
  if rfc_part.length < 2 ∨ rfc_part.headD emptyS ≠ rfcTok then badReq
  else
    match pyInt? (rfc_part.getD 1 emptyS) with
    | none => badReq
    | some rfc_num =>
      let ms := (reg.rfc_index.filter (fun r => r.1 = rfc_num)).map fmtRecord
      if ms.isEmpty then notFound404
      else ⟨200, "OK", joinCRLFs ms⟩

/-- Model of `P2PServer.handle_list` (read-only). -/
def handle_list (reg : Registry) (_headers : List (String × String)) : Resp :=
  let lines := reg.rfc_index.map fmtRecord
  ⟨200, "OK", if lines.isEmpty then emptyS else joinCRLFs lines⟩

/-- The request-line tokens: `lines[0].split()`. -/
def requestTokens (request : String) : List String :=
  (splitWS ((pyLines request).headD [])).map (fun l => String.mk l)

/-- Model of `P2PServer.process_request`.  Returns the (possibly mutated) registry
together with the structured response. -/
def process_request (reg : Registry) (request : String) : Registry × Resp :=
  let lines := pyLines request
  if lines.isEmpty then (reg, badReq)
  else
    let request_line := requestTokens request
    if request_line.length < 3 then (reg, badReq)
    else
      let method := request_line.headD emptyS
      let rfc_part := (request_line.drop 1).take 2
      let version := (request_line.getLast?).getD emptyS
      if version ≠ PROTOCOL_VERSION then (reg, resp505)
      else
        let headers := extract_headers request
        if method = addM then handle_add reg rfc_part headers
        else if method = lookupM then (reg, handle_lookup reg rfc_part headers)
        else if method = listM then (reg, handle_list reg headers)
        else (reg, badReq)

/-! ## Connection state machine (`P2PServer.handle_client`) -/

/-- The per-connection variables of `handle_client`. -/
structure ConnState where
  peer_host : Option String
  peer_port : Option Int
  peer_name : Option String
  peer_registered : Bool
  deriving DecidableEq

def connInit : ConnState := ⟨none, none, none, false⟩

/-- Python truthiness of a possibly-`None` string. -/
def truthyS (o : Option String) : Bool :=
  match o with
  | some v => v ≠ emptyS
  | none => false

/-- Python truthiness of a possibly-`None` int. -/
def truthyI (o : Option Int) : Bool :=
  match o with
  | some v => v ≠ 0
  | none => false

/-- One iteration of the `while` loop in `handle_client` for a non-empty
chunk `data`: update the tracked host/name/port, register the peer the
first time all three are truthy, then dispatch to `process_request`. -/
def connStep (cs : ConnState) (reg : Registry) (data : String) :
    ConnState × Registry × Resp :=
  let headers := extract_headers data
  let peer_host :=
    if hContains headers hostKey then hGet headers hostKey else cs.peer_host
  let peer_name :=
    if hContains headers hostnameKey then hGet headers hostnameKey
    else if truthyS peer_host ∧ !truthyS cs.peer_name then peer_host
    else cs.peer_name
  let peer_port :=
    if hContains headers portKey then
      match pyInt? ((hGet headers portKey).getD emptyS) with
      | some n => some n
      | none => cs.peer_port
    else cs.peer_port
  let doReg :=
    truthyS peer_host ∧ truthyI peer_port ∧ truthyS peer_name ∧
      cs.peer_registered = false
  let reg1 :=
    if doReg then
      register_peer reg (peer_name.getD emptyS) (peer_host.getD emptyS)
        (peer_port.getD 0)
    else reg
  let registered := cs.peer_registered || decide doReg
  let out := process_request reg1 data
  (⟨peer_host, peer_port, peer_name, registered⟩, out)

/-- The `finally` block of `handle_client`: `remove_peer` runs iff all
three identity variables are not `None` (regardless of
`peer_registered`). -/
def connTeardown (cs : ConnState) (reg : Registry) : Registry :=
  match cs.peer_name, cs.peer_port, cs.peer_host with
  | some n, some p, some h => remove_peer reg n h p
  | _, _, _ => reg

/-- Run a whole connection: fold `connStep` over the received chunks. -/
def runConnMsgs (cs : ConnState) (reg : Registry) :
    List String → ConnState × Registry
  | [] => (cs, reg)
  | d :: ds =>
    let r := connStep cs reg d
    runConnMsgs r.1 r.2.1 ds

/-- Run a whole connection including teardown. -/
def runConn (reg : Registry) (msgs : List String) : Registry :=
  let r := runConnMsgs connInit reg msgs
  connTeardown r.1 r.2

/-! ## Response rendering (`P2PServer._build_response`)

The timestamp and the OS banner are runtime values
(`datetime.now(...)`, `platform.system()`); they are passed in as
parameters.  The source computes a single `timestamp` and uses it for
both `Date` and `Last-Modified`. -/

def dateH : String := "Date: "
def osH : String := "OS: "
def lmH : String := "Last-Modified: "
def clH : String := "Content-Length: "
def ctH : String := "Content-Type: text/plain"
def CRLFs : String := "\r\n"

/-- Model of `P2PServer._build_response` (the `body is None` guard is dead code for
`str` bodies and is dropped). -/
def build_response (ts osi : String) (r : Resp) : String :=
  let body_length := utf8Len r.body
  let header_lines :=
    [PROTOCOL_VERSION ++ " " ++ toString r.code ++ " " ++ r.phrase,
      dateH ++ ts, osH ++ osi, lmH ++ ts,
      clH ++ toString body_length, ctH]
  let response_lines :=
    if r.body ≠ emptyS then header_lines ++ [emptyS, r.body]
    else header_lines ++ [emptyS]
  joinCRLFs response_lines

/-! ## Peer side (`peer.py`)

The peer's document responder (`process_upload_request`) and the pure core
of the fetch client (`get_rfc`).  The local file store is modelled as a
partial map from document number to file content (`os.path.exists` +
`open(...).read()`); timestamps and the OS banner are parameters. -/

/-- Model of `"{v} {code phrase}{CRLF}{CRLF}"`, the bodyless error responses of
`process_upload_request`. -/
def upResp (pv codePhrase : String) : String :=
  pv ++ " " ++ codePhrase ++ CRLFs ++ CRLFs

def br400 : String := "400 Bad Request"
def ns505 : String := "505 PCP-CI Version Not Supported"
def nf404 : String := "404 Not Found"
def okStatusTail : String := " 200 OK"

/-- Model of `P2PPeer.process_upload_request`: `pv` is
`self.default_protocol_version`, `store` the peer's document directory,
`ts`/`osi`/`lm` the current time, OS banner and file mtime. -/
def process_upload_request (pv : String) (store : Int → Option String)
    (ts osi lm : String) (request : String) : String :=
  let lines := pyLines request
  if lines.isEmpty then upResp pv br400
  else
    let request_line := requestTokens request
    if request_line.length < 4 ∨ request_line.getD 0 emptyS ≠ getM ∨
        request_line.getD 1 emptyS ≠ rfcTok then upResp pv br400
    else
      match pyInt? (request_line.getD 2 emptyS) with
      | none => upResp pv br400
      | some rfc_num =>
        if request_line.getD 3 emptyS ≠ pv then upResp pv ns505
        else
          match store rfc_num with
          | none => upResp pv nf404
          | some content =>
            joinCRLFs [pv ++ okStatusTail, dateH ++ ts, osH ++ osi,
              lmH ++ lm, clH ++ toString (utf8Len content), ctH, emptyS,
              content]

/-- The `GET` request assembled by `P2PPeer.get_rfc`. -/
def fetchRequest (advHost hostname osinfo : String) (rfc_num : Int)
    (version : String) : String :=
  joinCRLFs ["GET RFC " ++ toString rfc_num ++ " " ++ version,
    hostKey ++ ": " ++ advHost, hostnameKey ++ ": " ++ hostname,
    "OS: " ++ osinfo, emptyS]

def sepCRLF2 : List Char := ['\r', '\n', '\r', '\n']

def sepLF2 : List Char := ['\n', '\n']

/-- The header/body split of `get_rfc`: the index and length of the
separator, preferring `CRLFCRLF` and falling back to `"\n\n"`; `none`
models `split_index == -1` for both. -/
def fetchSplit (r : List Char) : Option (Nat × Nat) :=
  match firstIdx sepCRLF2 r with
  | some i => some (i, 4)
  | none =>
    match firstIdx sepLF2 r with
    | some i => some (i, 2)
    | none => none

def okChars : List Char := ['2', '0', '0', ' ', 'O', 'K']

/-- The status line `get_rfc` inspects:
`response[:split_index].splitlines()[0]` (`none` models the uncaught
`IndexError` on an empty prefix, which the enclosing `except` turns into
a failed fetch). -/
def fetchStatusLine (r : List Char) : Option (List Char) :=
  (fetchSplit r).bind (fun is => pySplitlinesHead (r.take is.1))

/-- The pure core of `P2PPeer.get_rfc` after the response has been read:
`some content` when the fetch succeeds and `content` is written to the
local file, `none` when `get_rfc` returns `False` without writing. -/
def parse_fetch (response : String) : Option String :=
  match fetchSplit response.data with
  | none => none
  | some is =>
    match pySplitlinesHead (response.data.take is.1) with
    | none => none
    | some status_line =>
      if containsSub okChars status_line then
        some (String.mk (response.data.drop (is.1 + is.2)))
      else none

/-- Model of `get_rfc`'s effect on the peer's local store: on success the fetched
content is written under `rfc_num`, otherwise the store is untouched and
`False` is returned. -/
def get_rfc_store (store : Int → Option String) (rfc_num : Int)
    (response : String) : (Int → Option String) × Bool :=
  match parse_fetch response with
  | none => (store, false)
  | some content => (fun m => if m = rfc_num then some content else store m, true)

/-! ## Auxiliary definitions for the verification -/

def digitVal (c : Char) : Nat := (pyDigit? c).getD 0

def valFold (acc : Nat) (l : List Char) : Nat :=
  l.foldl (fun a c => a * 10 + digitVal c) acc

/-- A line set is clean when every line is non-empty and free of CR/LF. -/
def cleanLines (lines : List (List Char)) : Prop :=
  ∀ l ∈ lines, l ≠ [] ∧ ∀ c ∈ l, c ≠ '\r' ∧ c ≠ '\n'

def c6store : Int → Option String := fun m => if m = 42 then some ("sample body") else none

def c1msg : String := "LIST ALL NOPE/1.0\r\nHost: h1\r\nPort: 5000\r\n\r\n"

def c5msg : String := "ADD RFC 12 PCP-CI/1.0\r\nHost: h2\r\nPort: 6000\r\n\r\n"

def c2msg : String :=
  "ADD RFC 1 PCP-CI/1.0\r\nHost: h\r\nHostname: n\r\nPort: 0\r\nTitle: T\r\n\r\n"

def c3hs : List (String × String) := [(hostKey, "h"), (portKey, "5"), (titleKey, "T")]

def c10hs : List (String × String) :=
  [(hostKey, "g"), (hostnameKey, "peerA"), (portKey, "9"), (titleKey, "U")]

def c9msg : String :=
  "ADD RFC PCP-CI/1.0\r\nHost: h1\r\nHostname: n1\r\nPort: 5000\r\nTitle: T\r\n\r\n"

/-- The response layout as the specification words it: status line, the
five standard headers, a blank line, then the optional body, with
`Content-Length` computed from the body's UTF-8 byte length. -/
def respSpecFormat (ts osi : String) (r : Resp) : String :=
  PROTOCOL_VERSION ++ " " ++ toString r.code ++ " " ++ r.phrase ++ CRLFs ++
  dateH ++ ts ++ CRLFs ++ osH ++ osi ++ CRLFs ++ lmH ++ ts ++ CRLFs ++
  clH ++ toString (utf8Len r.body) ++ CRLFs ++ ctH ++ CRLFs ++
  (if r.body = emptyS then emptyS else CRLFs ++ r.body)

def c8resp : String := "PCP-CI/1.0 404 Not Found no separator at all"

/-! ## General lemmas -/

theorem digitChar_digit (m : Nat) (h : m < 10) :
    pyDigit? (Nat.digitChar m) = some m := by
  interval_cases m <;> decide

theorem toDigitsCore_chars (fuel : Nat) :
    ∀ (n : Nat) (ds : List Char) (c : Char), c ∈ Nat.toDigitsCore 10 fuel n ds →
      c ∈ ds ∨ (pyDigit? c).isSome := by
  induction fuel with
  | zero => intro n ds c hc; exact Or.inl hc
  | succ fuel ih =>
    intro n ds c hc
    rw [Nat.toDigitsCore] at hc
    have hdig : (pyDigit? (Nat.digitChar (n % 10))).isSome := by
      rw [digitChar_digit (n % 10) (Nat.mod_lt n (by omega))]
      rfl
    by_cases hz : n / 10 = 0
    · rw [if_pos hz] at hc
      rcases List.mem_cons.mp hc with rfl | hc
      · exact Or.inr hdig
      · exact Or.inl hc
    · rw [if_neg hz] at hc
      rcases ih (n / 10) (Nat.digitChar (n % 10) :: ds) c hc with hc | hc
      · rcases List.mem_cons.mp hc with rfl | hc
        · exact Or.inr hdig
        · exact Or.inl hc
      · exact Or.inr hc

theorem toDigits_chars (n : Nat) (c : Char) (hc : c ∈ Nat.toDigits 10 n) :
    (pyDigit? c).isSome := by
  rcases toDigitsCore_chars (n + 1) n [] c hc with h | h
  · exact absurd h (List.not_mem_nil c)
  · exact h

theorem digitsValU_all_digits (l : List Char) :
    ∀ acc : Nat, (∀ c ∈ l, (pyDigit? c).isSome) →
      digitsValU acc l = some (valFold acc l) := by
  induction l with
  | nil => intro acc _; rfl
  | cons c rest ih =>
    intro acc hall
    have hc : (pyDigit? c).isSome := hall c (List.mem_cons_self c rest)
    have hcne : ¬ c = '_' := by
      rintro rfl
      exact absurd hc (by decide)
    rcases hv : pyDigit? c with _ | v
    · rw [hv] at hc; exact absurd hc (by decide)
    · rw [digitsValU.eq_def]
      simp only [if_neg hcne, hv]
      rw [ih (acc * 10 + v) (fun d hd => hall d (List.mem_cons_of_mem c hd))]
      have hdv : digitVal c = v := by rw [digitVal, hv]; rfl
      simp only [valFold, List.foldl_cons, hdv]

theorem parseNatU_all_digits (l : List Char) (hne : l ≠ [])
    (hall : ∀ c ∈ l, (pyDigit? c).isSome) :
    parseNatU l = some (valFold 0 l) := by
  cases l with
  | nil => exact absurd rfl hne
  | cons c rest =>
    have hc : (pyDigit? c).isSome := hall c (List.mem_cons_self c rest)
    rcases hv : pyDigit? c with _ | v
    · rw [hv] at hc; exact absurd hc (by decide)
    · rw [parseNatU.eq_def]
      simp only [hv]
      rw [digitsValU_all_digits rest v (fun d hd => hall d (List.mem_cons_of_mem c hd))]
      have hdv : digitVal c = v := by rw [digitVal, hv]; rfl
      simp only [valFold, List.foldl_cons, hdv, Nat.zero_mul, Nat.zero_add]

theorem valFold_toDigitsCore (fuel : Nat) :
    ∀ (n : Nat) (ds : List Char), n < fuel →
      valFold 0 (Nat.toDigitsCore 10 fuel n ds) = valFold n ds := by
  induction fuel with
  | zero => intro n ds h; omega
  | succ fuel ih =>
    intro n ds h
    rw [Nat.toDigitsCore]
    have hd : digitVal (Nat.digitChar (n % 10)) = n % 10 := by
      rw [digitVal, digitChar_digit (n % 10) (Nat.mod_lt n (by omega))]
      rfl
    by_cases hz : n / 10 = 0
    · rw [if_pos hz]
      have hn : n < 10 := by omega
      rw [valFold, List.foldl_cons, Nat.zero_mul, Nat.zero_add, hd]
      have : n % 10 = n := Nat.mod_eq_of_lt hn
      rw [this]
      rfl
    · rw [if_neg hz]
      have h1 : n / 10 < fuel := by
        have h2 : n / 10 < n := Nat.div_lt_self (by omega) (by omega)
        omega
      rw [ih (n / 10) (Nat.digitChar (n % 10) :: ds) h1]
      rw [valFold, List.foldl_cons, hd]
      have : n / 10 * 10 + n % 10 = n := by omega
      rw [this]
      rfl

theorem toDigitsCore_ne_nil_of_ne (fuel : Nat) :
    ∀ (n : Nat) (ds : List Char), ds ≠ [] → Nat.toDigitsCore 10 fuel n ds ≠ [] := by
  induction fuel with
  | zero => intro n ds h; exact h
  | succ fuel ih =>
    intro n ds h
    rw [Nat.toDigitsCore]
    by_cases hz : n / 10 = 0
    · rw [if_pos hz]; exact List.cons_ne_nil _ _
    · rw [if_neg hz]; exact ih (n / 10) _ (List.cons_ne_nil _ _)

theorem toDigits_ne_nil (n : Nat) : Nat.toDigits 10 n ≠ [] := by
  rw [Nat.toDigits, Nat.toDigitsCore]
  by_cases hz : n / 10 = 0
  · rw [if_pos hz]; exact List.cons_ne_nil _ _
  · rw [if_neg hz]; exact toDigitsCore_ne_nil_of_ne n (n / 10) _ (List.cons_ne_nil _ _)

theorem parseNatU_toDigits (n : Nat) : parseNatU (Nat.toDigits 10 n) = some n := by
  rw [parseNatU_all_digits (Nat.toDigits 10 n) (toDigits_ne_nil n)
    (fun c hc => toDigits_chars n c hc)]
  rw [Nat.toDigits, valFold_toDigitsCore (n + 1) n [] (Nat.lt_succ_self n)]
  rfl

theorem digit_not_ws (c : Char) (h : (pyDigit? c).isSome) : isPyWS c = false := by
  rw [pyDigit?] at h
  split at h
  · next hb =>
    simp only [isPyWS, Bool.or_eq_false_iff, decide_eq_false_iff_not]
    refine ⟨⟨⟨⟨⟨?_, ?_⟩, ?_⟩, ?_⟩, ?_⟩, ?_⟩ <;> rintro rfl <;> revert hb <;> decide
  · exact absurd h (by decide)

theorem digit_not_break (c : Char) (h : (pyDigit? c).isSome) :
    c ≠ '\r' ∧ c ≠ '\n' := by
  rw [pyDigit?] at h
  split at h
  · next hb =>
    constructor <;> rintro rfl <;> revert hb <;> decide
  · exact absurd h (by decide)

theorem dropWhile_all_neg (p : Char → Bool) (l : List Char)
    (h : ∀ c ∈ l, p c = false) : l.dropWhile p = l := by
  cases l with
  | nil => rfl
  | cons c rest =>
    rw [List.dropWhile_cons_of_neg]
    rw [h c (List.mem_cons_self c rest)]
    exact Bool.false_ne_true

theorem stripWS_all_neg (l : List Char) (h : ∀ c ∈ l, isPyWS c = false) :
    stripWS l = l := by
  rw [stripWS, dropWhile_all_neg _ l h, dropWhile_all_neg, List.reverse_reverse]
  intro c hc
  exact h c (List.mem_reverse.mp hc)

theorem pyInt?_toString (i : Int) : pyInt? (toString i) = some i := by
  cases i with
  | ofNat m =>
    have hd : (toString (Int.ofNat m)).data = Nat.toDigits 10 m := rfl
    rw [pyInt?, hd,
      stripWS_all_neg _ (fun c hc => digit_not_ws c (toDigits_chars m c hc))]
    rcases hsh : Nat.toDigits 10 m with _ | ⟨c, rest⟩
    · exact absurd hsh (toDigits_ne_nil m)
    · have hc : (pyDigit? c).isSome := by
        refine toDigits_chars m c ?_
        rw [hsh]
        exact List.mem_cons_self c rest
      have hcm : c ≠ '-' := by rintro rfl; exact absurd hc (by decide)
      have hcp : c ≠ '+' := by rintro rfl; exact absurd hc (by decide)
      split
      · next r heq => exact absurd (List.cons.inj heq).1 hcm
      · next r heq => exact absurd (List.cons.inj heq).1 hcp
      · rw [← hsh, parseNatU_toDigits]
        rfl
  | negSucc m =>
    have hd : (toString (Int.negSucc m)).data = '-' :: Nat.toDigits 10 (m + 1) := rfl
    have hall : ∀ c ∈ (toString (Int.negSucc m)).data, isPyWS c = false := by
      rw [hd]
      intro c hc
      rcases List.mem_cons.mp hc with rfl | hc
      · decide
      · exact digit_not_ws c (toDigits_chars (m + 1) c hc)
    rw [pyInt?, stripWS_all_neg _ hall, hd]
    split
    · next r heq =>
      obtain rfl : Nat.toDigits 10 (m + 1) = r := (List.cons.inj heq).2
      rw [parseNatU_toDigits]
      simp [Int.negSucc_eq]
    · next r heq => exact absurd (List.cons.inj heq).1 (by decide)
    · next hne1 hne2 => exact absurd rfl (hne1 (Nat.toDigits 10 (m + 1)))

theorem toString_int_chars (i : Int) (c : Char) (hc : c ∈ (toString i).data) :
    c = '-' ∨ (pyDigit? c).isSome := by
  cases i with
  | ofNat m =>
    have hd : (toString (Int.ofNat m)).data = Nat.toDigits 10 m := rfl
    rw [hd] at hc
    exact Or.inr (toDigits_chars m c hc)
  | negSucc m =>
    have hd : (toString (Int.negSucc m)).data = '-' :: Nat.toDigits 10 (m + 1) := rfl
    rw [hd] at hc
    rcases List.mem_cons.mp hc with rfl | hc
    · exact Or.inl rfl
    · exact Or.inr (toDigits_chars (m + 1) c hc)

theorem toString_nat_chars (k : Nat) (c : Char) (hc : c ∈ (toString k).data) :
    (pyDigit? c).isSome :=
  toDigits_chars k c hc

theorem firstIdx_cons_self (p : Char) (pat : List Char) (l : List Char)
    (h : (p :: pat).isPrefixOf l = true) : firstIdx (p :: pat) l = some 0 := by
  cases l with
  | nil => exact absurd h (by simp [List.isPrefixOf])
  | cons c rest => rw [firstIdx, if_pos h]

theorem firstIdx_append_skip (p : Char) (pat : List Char) (A B : List Char)
    (hA : ∀ c ∈ A, c ≠ p) :
    firstIdx (p :: pat) (A ++ B) =
      (firstIdx (p :: pat) B).map (fun i => i + A.length) := by
  induction A with
  | nil =>
    rcases h : firstIdx (p :: pat) B with _ | k <;> simp [h]
  | cons a A ih =>
    have ha : a ≠ p := hA a (List.mem_cons_self a A)
    have hpre : ((p :: pat).isPrefixOf (a :: (A ++ B))) = false := by
      simp only [List.isPrefixOf, Bool.and_eq_false_iff]
      left
      simp only [beq_eq_false_iff_ne, ne_eq]
      exact fun h => ha h.symm
    rw [List.cons_append, firstIdx, if_neg (by rw [hpre]; exact Bool.false_ne_true)]
    rw [ih (fun c hc => hA c (List.mem_cons_of_mem a hc))]
    rcases h : firstIdx (p :: pat) B with _ | k
    · rfl
    · simp [h, Nat.add_assoc]

theorem joinCRLFchars_cons_cons (l l2 : List Char) (rest : List (List Char)) :
    joinCRLFchars (l :: l2 :: rest) = l ++ '\r' :: '\n' :: joinCRLFchars (l2 :: rest) :=
  rfl

theorem joinCRLFchars_head (c : Char) (l2 : List Char) (rest : List (List Char)) :
    ∃ T, joinCRLFchars ((c :: l2) :: rest) = c :: T := by
  cases rest with
  | nil => exact ⟨l2, rfl⟩
  | cons r rs => exact ⟨l2 ++ '\r' :: '\n' :: joinCRLFchars (r :: rs), rfl⟩

theorem firstIdx_cons_neg (pat : List Char) (c : Char) (rest : List Char)
    (h : pat.isPrefixOf (c :: rest) = false) :
    firstIdx pat (c :: rest) = (firstIdx pat rest).map (fun i => i + 1) := by
  rw [firstIdx, if_neg (by rw [h]; exact Bool.false_ne_true)]

theorem firstIdx_sep_join (lines : List (List Char)) (C : List Char)
    (hne : lines ≠ []) (hcl : cleanLines lines) :
    firstIdx sepCRLF2 (joinCRLFchars lines ++ '\r' :: '\n' :: '\r' :: '\n' :: C) =
      some (joinCRLFchars lines).length := by
  induction lines with
  | nil => exact absurd rfl hne
  | cons l ls ih =>
    cases ls with
    | nil =>
      have hA : ∀ c ∈ l, c ≠ '\r' := fun c hc => ((hcl l (by simp)).2 c hc).1
      have h0 : firstIdx sepCRLF2 ('\r' :: '\n' :: '\r' :: '\n' :: C) = some 0 := by
        refine firstIdx_cons_self '\r' ['\n', '\r', '\n'] _ ?_
        exact List.isPrefixOf_iff_prefix.mpr ⟨C, rfl⟩
      have := firstIdx_append_skip '\r' ['\n', '\r', '\n'] l
        ('\r' :: '\n' :: '\r' :: '\n' :: C) hA
      rw [show joinCRLFchars [l] = l from rfl]
      rw [show sepCRLF2 = ['\r', '\n', '\r', '\n'] from rfl]
      rw [show sepCRLF2 = ['\r', '\n', '\r', '\n'] from rfl] at h0
      rw [this, h0]
      simp
    | cons l2 rs =>
      obtain ⟨hl2ne, hl2cl⟩ := hcl l2 (by simp)
      rcases hl2 : l2 with _ | ⟨c2, l2'⟩
      · exact absurd hl2 hl2ne
      subst hl2
      have hc2 : c2 ≠ '\r' := (hl2cl c2 (List.mem_cons_self _ _)).1
      obtain ⟨T, hT⟩ := joinCRLFchars_head c2 l2' rs
      have hA : ∀ c ∈ l, c ≠ '\r' := fun c hc => ((hcl l (by simp)).2 c hc).1
      have ihs : firstIdx sepCRLF2
          (joinCRLFchars ((c2 :: l2') :: rs) ++ '\r' :: '\n' :: '\r' :: '\n' :: C) =
          some (joinCRLFchars ((c2 :: l2') :: rs)).length := by
        refine ih ?_ ?_
        · exact List.cons_ne_nil _ _
        · intro m hm
          exact hcl m (List.mem_cons_of_mem l hm)
      rw [joinCRLFchars_cons_cons, List.append_assoc, List.cons_append,
        List.cons_append]
      rw [show sepCRLF2 = ['\r', '\n', '\r', '\n'] from rfl] at ihs ⊢
      rw [firstIdx_append_skip '\r' ['\n', '\r', '\n'] l _ hA]
      have hpre1 : (['\r', '\n', '\r', '\n'] : List Char).isPrefixOf
          ('\r' :: '\n' :: (joinCRLFchars ((c2 :: l2') :: rs) ++
            '\r' :: '\n' :: '\r' :: '\n' :: C)) = false := by
        rw [hT, List.cons_append]
        simp only [List.isPrefixOf, Bool.and_eq_false_iff]
        right; right; left
        simp only [beq_eq_false_iff_ne, ne_eq]
        exact fun hh => hc2 hh.symm
      have hpre2 : (['\r', '\n', '\r', '\n'] : List Char).isPrefixOf
          ('\n' :: (joinCRLFchars ((c2 :: l2') :: rs) ++
            '\r' :: '\n' :: '\r' :: '\n' :: C)) = false := by
        simp [List.isPrefixOf]
      rw [firstIdx_cons_neg _ _ _ hpre1, firstIdx_cons_neg _ _ _ hpre2, ihs]
      simp only [Option.map_map, Option.map, joinCRLFchars_cons_cons]
      simp only [List.length_append, List.length_cons, Function.comp]
      norm_num
      omega

theorem replaceCRLF_crlf (B : List Char) :
    replaceCRLF ('\r' :: '\n' :: B) = '\n' :: replaceCRLF B := by
  rw [replaceCRLF]
  rw [if_pos ⟨rfl, rfl⟩]

theorem replaceCRLF_cons2 (c1 c2 : Char) (rest : List Char) (h : c1 ≠ '\r') :
    replaceCRLF (c1 :: c2 :: rest) = c1 :: replaceCRLF (c2 :: rest) := by
  rw [replaceCRLF]
  exact if_neg (fun hand => h hand.1)

theorem replaceCRLF_skip (A : List Char) (hA : ∀ c ∈ A, c ≠ '\r') :
    ∀ B : List Char, replaceCRLF (A ++ B) = A ++ replaceCRLF B := by
  induction A with
  | nil => intro B; rfl
  | cons a A ih =>
    intro B
    have ha : a ≠ '\r' := hA a (List.mem_cons_self a A)
    rcases hAB : A ++ B with _ | ⟨c2, rest2⟩
    · rcases List.append_eq_nil.mp hAB with ⟨rfl, rfl⟩
      rfl
    · rw [List.cons_append, hAB, replaceCRLF]
      rw [if_neg (fun hand => ha hand.1)]
      rw [← hAB, ih (fun c hc => hA c (List.mem_cons_of_mem a hc)) B]
      rw [List.cons_append]

theorem dropWhile_append_stop (p : Char → Bool) (x : Char) (hx : p x = false) :
    ∀ (A B : List Char), (A ++ x :: B).dropWhile p = A.dropWhile p ++ x :: B := by
  intro A
  induction A with
  | nil =>
    intro B
    simp [List.dropWhile_cons, hx]
  | cons a A ih =>
    intro B
    by_cases ha : p a = true
    · rw [List.cons_append, List.dropWhile_cons_of_pos ha,
        List.dropWhile_cons_of_pos ha, ih B]
    · rw [List.cons_append, List.dropWhile_cons_of_neg (by simp [ha]),
        List.dropWhile_cons_of_neg (by simp [ha]), List.cons_append]

/-- Model of `strip` of `A ++ '\n' :: x :: Y` keeps the prefix whenever `A` starts
with a non-whitespace char and `x` is non-whitespace. -/
theorem stripWS_keep (a x : Char) (A Y : List Char)
    (ha : isPyWS a = false) (hx : isPyWS x = false) :
    ∃ Z, stripWS ((a :: A) ++ '\n' :: x :: Y) = (a :: A) ++ '\n' :: x :: Z := by
  refine ⟨(Y.reverse.dropWhile (fun c => isPyWS c)).reverse, ?_⟩
  rw [stripWS, List.cons_append, List.dropWhile_cons_of_neg (by simp [ha])]
  have hrev : (a :: (A ++ '\n' :: x :: Y)).reverse =
      Y.reverse ++ x :: ('\n' :: (A.reverse ++ [a])) := by
    simp
  rw [hrev, dropWhile_append_stop _ x hx]
  simp

theorem splitLines_ne_nil (l : List Char) : splitLines l ≠ [] := by
  induction l with
  | nil => simp [splitLines]
  | cons c rest ih =>
    by_cases hc : c = '\n'
    · simp [splitLines, hc]
    · rcases h : splitLines rest with _ | ⟨m, ms⟩ <;> simp [splitLines, hc, h]

theorem splitLines_append (A : List Char) (hA : ∀ c ∈ A, c ≠ '\n') :
    ∀ B : List Char, splitLines (A ++ '\n' :: B) = A :: splitLines B := by
  induction A with
  | nil =>
    intro B
    simp [splitLines]
  | cons a A ih =>
    intro B
    have ha : a ≠ '\n' := hA a (List.mem_cons_self a A)
    rw [List.cons_append, splitLines, if_neg ha,
      ih (fun c hc => hA c (List.mem_cons_of_mem a hc)) B]

theorem splitWSAux_word (A : List Char) (hA : ∀ c ∈ A, isPyWS c = false) :
    ∀ (rest acc : List Char),
      splitWSAux (A ++ rest) acc = splitWSAux rest (A.reverse ++ acc) := by
  induction A with
  | nil => intro rest acc; simp
  | cons a A ih =>
    intro rest acc
    have ha : isPyWS a = false := hA a (List.mem_cons_self a A)
    rw [List.cons_append, splitWSAux.eq_def]
    simp only [ha, Bool.false_eq_true, if_false]
    rw [ih (fun c hc => hA c (List.mem_cons_of_mem a hc)) rest (a :: acc)]
    simp

theorem splitWSAux_space (rest acc : List Char) (hacc : acc ≠ []) :
    splitWSAux (' ' :: rest) acc = acc.reverse :: splitWSAux rest [] := by
  rw [splitWSAux.eq_def]
  simp only [show isPyWS ' ' = true from rfl, if_true]
  rw [if_neg (by simp [hacc])]

theorem splitWSAux_last (acc : List Char) (hacc : acc ≠ []) :
    splitWSAux [] acc = [acc.reverse] := by
  rw [splitWSAux.eq_def]
  simp [hacc]

theorem data_joinCRLFs (ls : List String) :
    (joinCRLFs ls).data = joinCRLFchars (ls.map String.data) := by
  induction ls with
  | nil => rfl
  | cons l ls ih =>
    cases ls with
    | nil => rfl
    | cons l2 ls2 =>
      rw [show joinCRLFs (l :: l2 :: ls2) = l ++ "\r\n" ++ joinCRLFs (l2 :: ls2) from rfl]
      simp only [String.data_append, ih, List.map_cons, joinCRLFchars_cons_cons]
      simp

theorem intRepr_nonws (n : Int) (c : Char) (hc : c ∈ (toString n).data) :
    isPyWS c = false := by
  rcases toString_int_chars n c hc with rfl | h
  · rfl
  · exact digit_not_ws c h

theorem intRepr_nobreak (n : Int) (c : Char) (hc : c ∈ (toString n).data) :
    c ≠ '\r' ∧ c ≠ '\n' := by
  rcases toString_int_chars n c hc with rfl | h
  · exact ⟨by decide, by decide⟩
  · exact digit_not_break c h

theorem fetchRequest_firstLine (host hn osc : String) (n : Int) :
    ∃ Z : List Char,
      stripWS (replaceCRLF (fetchRequest host hn osc n PROTOCOL_VERSION).data) =
        ('G' :: ('E' :: 'T' :: ' ' :: 'R' :: 'F' :: 'C' :: ' ' ::
          ((toString n).data ++ ' ' :: PROTOCOL_VERSION.data))) ++
          '\n' :: 'H' :: Z := by
  have hdata : (fetchRequest host hn osc n PROTOCOL_VERSION).data =
      ('G' :: 'E' :: 'T' :: ' ' :: 'R' :: 'F' :: 'C' :: ' ' ::
        ((toString n).data ++ ' ' :: PROTOCOL_VERSION.data)) ++
      '\r' :: '\n' :: ('H' :: 'o' :: ("st: ".data ++ host.data ++
        '\r' :: '\n' :: ("Hostname: ".data ++ hn.data ++
        '\r' :: '\n' :: ("OS: ".data ++ osc.data ++ '\r' :: '\n' :: [])))) := by
    rw [fetchRequest, data_joinCRLFs]
    simp [String.data_append, hostKey, hostnameKey, emptyS, PROTOCOL_VERSION,
      joinCRLFchars]
  rw [hdata]
  have hPV : ∀ c ∈ PROTOCOL_VERSION.data, c ≠ '\r' := by
    intro c hc
    rw [show PROTOCOL_VERSION.data =
      ['P','C','P','-','C','I','/','1','.','0'] from rfl] at hc
    fin_cases hc <;> decide
  have hl1 : ∀ c ∈ ('G' :: 'E' :: 'T' :: ' ' :: 'R' :: 'F' :: 'C' :: ' ' ::
      ((toString n).data ++ ' ' :: PROTOCOL_VERSION.data)), c ≠ '\r' := by
    intro c hc
    simp only [List.mem_cons, List.mem_append] at hc
    rcases hc with rfl | rfl | rfl | rfl | rfl | rfl | rfl | rfl | hc | rfl | hc
    all_goals first
      | decide
      | exact (intRepr_nobreak n c hc).1
      | exact hPV c hc
  rw [replaceCRLF_skip _ hl1, replaceCRLF_crlf]
  have hrest : ∃ Y, replaceCRLF ('H' :: 'o' :: ("st: ".data ++ host.data ++
      '\r' :: '\n' :: ("Hostname: ".data ++ hn.data ++
      '\r' :: '\n' :: ("OS: ".data ++ osc.data ++ '\r' :: '\n' :: [])))) =
      'H' :: Y := by
    rw [replaceCRLF_cons2 _ _ _ (by decide)]
    exact ⟨_, rfl⟩
  obtain ⟨Y, hY⟩ := hrest
  rw [hY]
  exact stripWS_keep 'G' 'H' _ Y rfl rfl

theorem intRepr_ne_nil (n : Int) : (toString n).data ≠ [] := by
  cases n with
  | ofNat m => exact toDigits_ne_nil m
  | negSucc m => exact List.cons_ne_nil _ _

theorem fetchRequest_tokens (host hn osc : String) (n : Int) :
    requestTokens (fetchRequest host hn osc n PROTOCOL_VERSION) =
      ["GET", "RFC", toString n, "PCP-CI/1.0"] := by
  obtain ⟨Z, hZ⟩ := fetchRequest_firstLine host hn osc n
  have hPVn : ∀ c ∈ PROTOCOL_VERSION.data, c ≠ '\n' := by
    intro c hc
    rw [show PROTOCOL_VERSION.data =
      ['P','C','P','-','C','I','/','1','.','0'] from rfl] at hc
    fin_cases hc <;> decide
  have hl1n : ∀ c ∈ ('G' :: 'E' :: 'T' :: ' ' :: 'R' :: 'F' :: 'C' :: ' ' ::
      ((toString n).data ++ ' ' :: PROTOCOL_VERSION.data)), c ≠ '\n' := by
    intro c hc
    simp only [List.mem_cons, List.mem_append] at hc
    rcases hc with rfl | rfl | rfl | rfl | rfl | rfl | rfl | rfl | hc | rfl | hc
    all_goals first
      | decide
      | exact (intRepr_nobreak n c hc).2
      | exact hPVn c hc
  have hD : ∀ c ∈ (toString n).data, isPyWS c = false :=
    fun c hc => intRepr_nonws n c hc
  have hPVw : ∀ c ∈ PROTOCOL_VERSION.data, isPyWS c = false := by
    intro c hc
    rw [show PROTOCOL_VERSION.data =
      ['P','C','P','-','C','I','/','1','.','0'] from rfl] at hc
    fin_cases hc <;> decide
  rw [requestTokens, pyLines, hZ, splitLines_append _ hl1n ('H' :: Z)]
  rw [List.headD_cons]
  have s1 : splitWS ('G' :: 'E' :: 'T' :: ' ' :: 'R' :: 'F' :: 'C' :: ' ' ::
      ((toString n).data ++ ' ' :: PROTOCOL_VERSION.data)) =
      ['G', 'E', 'T'] :: ['R', 'F', 'C'] :: (toString n).data ::
        [PROTOCOL_VERSION.data] := by
    show splitWSAux (['G', 'E', 'T'] ++ ' ' :: ('R' :: 'F' :: 'C' :: ' ' ::
      ((toString n).data ++ ' ' :: PROTOCOL_VERSION.data))) [] = _
    rw [splitWSAux_word ['G', 'E', 'T'] (by decide)]
    rw [splitWSAux_space _ _ (by decide)]
    show _ :: splitWSAux (['R', 'F', 'C'] ++ ' ' ::
      ((toString n).data ++ ' ' :: PROTOCOL_VERSION.data)) [] = _
    rw [splitWSAux_word ['R', 'F', 'C'] (by decide)]
    rw [splitWSAux_space _ _ (by decide)]
    rw [splitWSAux_word ((toString n).data) hD]
    rw [splitWSAux_space _ _ (by
      simp only [List.append_nil, ne_eq, List.reverse_eq_nil_iff]
      exact intRepr_ne_nil n)]
    have hlast : splitWSAux PROTOCOL_VERSION.data [] = [PROTOCOL_VERSION.data] := by
      have := splitWSAux_word PROTOCOL_VERSION.data hPVw [] []
      rw [List.append_nil] at this
      rw [this, splitWSAux_last _ (by decide)]
      decide
    rw [hlast]
    simp
  rw [s1]
  simp only [List.map_cons, List.map_nil]
  rfl

theorem pyLines_ne_nil (s : String) : (pyLines s).isEmpty = false := by
  simp [List.isEmpty_eq_false, pyLines, splitLines_ne_nil]

theorem upload_response_eq (store : Int → Option String) (ts osi lm : String)
    (host hn osc : String) (C : String) (n : Int) (hstore : store n = some C) :
    process_upload_request PROTOCOL_VERSION store ts osi lm
        (fetchRequest host hn osc n PROTOCOL_VERSION) =
      joinCRLFs [PROTOCOL_VERSION ++ okStatusTail, dateH ++ ts, osH ++ osi,
        lmH ++ lm, clH ++ toString (utf8Len C), ctH, emptyS, C] := by
  simp only [process_upload_request, pyLines_ne_nil, Bool.false_eq_true, if_false]
  rw [fetchRequest_tokens host hn osc n]
  rw [if_neg (by
    simp only [List.length_cons, List.getD]
    push_neg
    refine ⟨by omega, ?_, ?_⟩ <;> rfl)]
  have h2 : (["GET", "RFC", toString n, "PCP-CI/1.0"] : List String).getD 2 emptyS =
      toString n := rfl
  rw [h2, pyInt?_toString]
  dsimp only
  rw [if_neg (by
    show ¬ (["GET", "RFC", toString n, "PCP-CI/1.0"] : List String).getD 3 emptyS ≠
      PROTOCOL_VERSION
    simp only [ne_eq, not_not]
    rfl)]
  rw [hstore]

theorem takeWhile_append_stop (p : Char → Bool) (x : Char) (hx : p x = false) :
    ∀ (A B : List Char), (∀ c ∈ A, p c = true) →
      (A ++ x :: B).takeWhile p = A := by
  intro A
  induction A with
  | nil =>
    intro B _
    simp [List.takeWhile_cons, hx]
  | cons a A ih =>
    intro B hA
    rw [List.cons_append, List.takeWhile_cons_of_pos (hA a (List.mem_cons_self a A))]
    rw [ih B (fun c hc => hA c (List.mem_cons_of_mem a hc))]

theorem join8_split (a b c d e f g : List Char) :
    joinCRLFchars [a, b, c, d, e, f, [], g] =
      joinCRLFchars [a, b, c, d, e, f] ++ '\r' :: '\n' :: '\r' :: '\n' :: g := by
  simp only [joinCRLFchars, List.append_assoc, List.nil_append, List.cons_append]

theorem parse_upload_200 (ts osi lm : String) (C : String)
    (hts : ∀ c ∈ ts.data, c ≠ '\r' ∧ c ≠ '\n')
    (hosi : ∀ c ∈ osi.data, c ≠ '\r' ∧ c ≠ '\n')
    (hlm : ∀ c ∈ lm.data, c ≠ '\r' ∧ c ≠ '\n') :
    parse_fetch (joinCRLFs [PROTOCOL_VERSION ++ okStatusTail, dateH ++ ts,
      osH ++ osi, lmH ++ lm, clH ++ toString (utf8Len C), ctH, emptyS, C]) =
      some C := by
  have hdata : (joinCRLFs [PROTOCOL_VERSION ++ okStatusTail, dateH ++ ts,
      osH ++ osi, lmH ++ lm, clH ++ toString (utf8Len C), ctH, emptyS, C]).data =
      joinCRLFchars [(PROTOCOL_VERSION ++ okStatusTail).data, (dateH ++ ts).data,
        (osH ++ osi).data, (lmH ++ lm).data,
        (clH ++ toString (utf8Len C)).data, ctH.data] ++
      '\r' :: '\n' :: '\r' :: '\n' :: C.data := by
    rw [data_joinCRLFs]
    simp only [List.map_cons, List.map_nil]
    rw [show emptyS.data = [] from rfl]
    exact join8_split _ _ _ _ _ _ _
  have hclean : cleanLines [(PROTOCOL_VERSION ++ okStatusTail).data,
      (dateH ++ ts).data, (osH ++ osi).data, (lmH ++ lm).data,
      (clH ++ toString (utf8Len C)).data, ctH.data] := by
    intro l hl
    simp only [List.mem_cons, List.not_mem_nil, or_false] at hl
    rcases hl with rfl | rfl | rfl | rfl | rfl | rfl
    · exact ⟨by decide, by decide⟩
    · refine ⟨by simp [dateH, String.data_append], ?_⟩
      intro c hc
      rw [String.data_append] at hc
      rcases List.mem_append.mp hc with hc | hc
      · rw [show dateH.data = ['D','a','t','e',':',' '] from rfl] at hc
        fin_cases hc <;> exact ⟨by decide, by decide⟩
      · exact hts c hc
    · refine ⟨by simp [osH, String.data_append], ?_⟩
      intro c hc
      rw [String.data_append] at hc
      rcases List.mem_append.mp hc with hc | hc
      · rw [show osH.data = ['O','S',':',' '] from rfl] at hc
        fin_cases hc <;> exact ⟨by decide, by decide⟩
      · exact hosi c hc
    · refine ⟨by simp [lmH, String.data_append], ?_⟩
      intro c hc
      rw [String.data_append] at hc
      rcases List.mem_append.mp hc with hc | hc
      · rw [show lmH.data =
          ['L','a','s','t','-','M','o','d','i','f','i','e','d',':',' '] from rfl] at hc
        fin_cases hc <;> exact ⟨by decide, by decide⟩
      · exact hlm c hc
    · refine ⟨by simp [clH, String.data_append], ?_⟩
      intro c hc
      rw [String.data_append] at hc
      rcases List.mem_append.mp hc with hc | hc
      · rw [show clH.data =
          ['C','o','n','t','e','n','t','-','L','e','n','g','t','h',':',' '] from rfl] at hc
        fin_cases hc <;> exact ⟨by decide, by decide⟩
      · exact digit_not_break c (toString_nat_chars (utf8Len C) c hc)
    · exact ⟨by decide, by decide⟩
  have hsep := firstIdx_sep_join _ C.data (by simp) hclean
  rw [parse_fetch, hdata, fetchSplit, hsep]
  dsimp only
  rw [List.take_left]
  have hH : joinCRLFchars [(PROTOCOL_VERSION ++ okStatusTail).data,
      (dateH ++ ts).data, (osH ++ osi).data, (lmH ++ lm).data,
      (clH ++ toString (utf8Len C)).data, ctH.data] =
      ('P' :: 'C' :: 'P' :: '-' :: 'C' :: 'I' :: '/' :: '1' :: '.' :: '0' ::
        ' ' :: '2' :: '0' :: '0' :: ' ' :: 'O' :: 'K' :: []) ++
      '\r' :: '\n' :: joinCRLFchars [(dateH ++ ts).data, (osH ++ osi).data,
        (lmH ++ lm).data, (clH ++ toString (utf8Len C)).data, ctH.data] := by
    rw [joinCRLFchars_cons_cons]
    rfl
  rw [hH, pySplitlinesHead]
  rw [if_neg (by simp)]
  rw [takeWhile_append_stop _ '\r' (by decide) _ _ (by decide)]
  dsimp only
  rw [if_pos (by decide)]
  have hlen : (('P' :: 'C' :: 'P' :: '-' :: 'C' :: 'I' :: '/' :: '1' :: '.' :: '0' ::
      ' ' :: '2' :: '0' :: '0' :: ' ' :: 'O' :: 'K' :: []) ++
      '\r' :: '\n' :: joinCRLFchars [(dateH ++ ts).data, (osH ++ osi).data,
        (lmH ++ lm).data, (clH ++ toString (utf8Len C)).data, ctH.data] ++
      '\r' :: '\n' :: '\r' :: '\n' :: C.data).drop
      ((('P' :: 'C' :: 'P' :: '-' :: 'C' :: 'I' :: '/' :: '1' :: '.' :: '0' ::
      ' ' :: '2' :: '0' :: '0' :: ' ' :: 'O' :: 'K' :: []) ++
      '\r' :: '\n' :: joinCRLFchars [(dateH ++ ts).data, (osH ++ osi).data,
        (lmH ++ lm).data, (clH ++ toString (utf8Len C)).data, ctH.data]).length + 4) =
      C.data := by
    rw [show (('P' :: 'C' :: 'P' :: '-' :: 'C' :: 'I' :: '/' :: '1' :: '.' :: '0' ::
      ' ' :: '2' :: '0' :: '0' :: ' ' :: 'O' :: 'K' :: []) ++
      '\r' :: '\n' :: joinCRLFchars [(dateH ++ ts).data, (osH ++ osi).data,
        (lmH ++ lm).data, (clH ++ toString (utf8Len C)).data, ctH.data] ++
      '\r' :: '\n' :: '\r' :: '\n' :: C.data) =
      ((('P' :: 'C' :: 'P' :: '-' :: 'C' :: 'I' :: '/' :: '1' :: '.' :: '0' ::
      ' ' :: '2' :: '0' :: '0' :: ' ' :: 'O' :: 'K' :: []) ++
      '\r' :: '\n' :: joinCRLFchars [(dateH ++ ts).data, (osH ++ osi).data,
        (lmH ++ lm).data, (clH ++ toString (utf8Len C)).data, ctH.data]) ++
      ['\r', '\n', '\r', '\n']) ++ C.data from by simp]
    refine List.drop_left' ?_
    simp
  rw [hlen]

/-- Claim C6: storing content `C` under number `n` on peer A and fetching
`GET RFC n` from peer B (matching version token) hands B exactly `C`: the
responder's success body is the file content, the fetch client's
header/body split recovers it, and B's store afterwards maps `n` to `C`. -/
theorem C6_round_trip (C : String) (n : Int) (store : Int → Option String)
    (ts osi lm host hn osc : String)
    (hstore : store n = some C)
    (hts : ∀ c ∈ ts.data, c ≠ '\r' ∧ c ≠ '\n')
    (hosi : ∀ c ∈ osi.data, c ≠ '\r' ∧ c ≠ '\n')
    (hlm : ∀ c ∈ lm.data, c ≠ '\r' ∧ c ≠ '\n') :
    parse_fetch (process_upload_request PROTOCOL_VERSION store ts osi lm
        (fetchRequest host hn osc n PROTOCOL_VERSION)) = some C ∧
    (get_rfc_store store n (process_upload_request PROTOCOL_VERSION store ts osi lm
        (fetchRequest host hn osc n PROTOCOL_VERSION))).2 = true ∧
    (get_rfc_store store n (process_upload_request PROTOCOL_VERSION store ts osi lm
        (fetchRequest host hn osc n PROTOCOL_VERSION))).1 n = some C := by
  have h1 : parse_fetch (process_upload_request PROTOCOL_VERSION store ts osi lm
      (fetchRequest host hn osc n PROTOCOL_VERSION)) = some C := by
    rw [upload_response_eq store ts osi lm host hn osc C n hstore]
    exact parse_upload_200 ts osi lm C hts hosi hlm
  refine ⟨h1, ?_, ?_⟩
  · rw [get_rfc_store, h1]
  · rw [get_rfc_store, h1]
    simp

theorem C6_round_trip_witness :
    c6store 42 = some ("sample body") ∧
    parse_fetch (process_upload_request PROTOCOL_VERSION c6store
        ("Mon, 01 Jan 2024 00:00:00 GMT") "Linux 6.1" "Sun, 31 Dec 2023 09:08:07 GMT"
        (fetchRequest ("localhost") "peerB" "Linux 6.1" 42 PROTOCOL_VERSION)) =
      some ("sample body") :=
  ⟨by decide,
    (C6_round_trip ("sample body") 42 c6store ("Mon, 01 Jan 2024 00:00:00 GMT")
      "Linux 6.1" "Sun, 31 Dec 2023 09:08:07 GMT" "localhost" "peerB" "Linux 6.1"
      (by decide) (by decide) (by decide) (by decide)).1⟩

/-! ## Claim theorems (directory server) -/

/-- Claim C1 (amended): a request whose line has at least three tokens and
whose last token differs from the protocol token is answered `505` by
`process_request`, and `process_request` itself leaves the registry
untouched. -/
theorem C1_version_gate (reg : Registry) (req : String)
    (hlen : 3 ≤ (requestTokens req).length)
    (hver : ((requestTokens req).getLast?).getD emptyS ≠ PROTOCOL_VERSION) :
    process_request reg req = (reg, resp505) := by
  simp only [process_request, pyLines_ne_nil, Bool.false_eq_true, if_false]
  rw [if_neg (by omega), if_pos hver]

/-- Claim C1 is false as stated: handling this version-mismatched request
on a fresh connection yields the `505` response **and** inserts the
sender's identity into the peer set. -/
theorem C1_counterexample :
    (connStep connInit emptyReg c1msg).2.2.code = 505 ∧
    (connStep connInit emptyReg c1msg).2.1.peers = [("h1", "h1", 5000)] := by
  constructor <;> rfl

theorem C1_version_gate_witness :
    3 ≤ (requestTokens c1msg).length ∧
    ((requestTokens c1msg).getLast?).getD emptyS ≠ PROTOCOL_VERSION ∧
    process_request emptyReg c1msg = (emptyReg, resp505) :=
  ⟨by decide, by decide, C1_version_gate emptyReg c1msg (by decide) (by decide)⟩

/-- Claim C5 (amended): `handle_add` itself answers `400 Bad Request` and
leaves the registry untouched whenever a required field is missing/empty
or a numeric field fails to parse. -/
theorem C5_add_bad_request (reg : Registry) (rp : List String)
    (hs2 : List (String × String))
    (h : (hGet hs2 hostKey).getD emptyS = emptyS ∨
      (hGet hs2 portKey).getD emptyS = emptyS ∨
      (hGet hs2 titleKey).getD emptyS = emptyS ∨
      pyInt? ((hGet hs2 portKey).getD emptyS) = none ∨
      pyInt? (rp.getD 1 emptyS) = none) :
    handle_add reg rp hs2 = (reg, badReq) := by
  simp only [handle_add]
  split
  · rfl
  · split
    · rfl
    · next num hnum =>
        split
        · rfl
        · next hne =>
            split
            · rfl
            · next pn hport =>
                exfalso
                push_neg at hne
                rcases h with h | h | h | h | h
                · exact hne.1 h
                · exact hne.2.1 h
                · exact hne.2.2.1 h
                · rw [h] at hport
                  exact Option.noConfusion hport
                · rw [h] at hnum
                  exact Option.noConfusion hnum

/-- Claim C5 is false as stated at the connection level: an `ADD` with a
missing `Title` is answered `400`, yet handling the request registers the
sender in the peer set. -/
theorem C5_counterexample :
    (connStep connInit emptyReg c5msg).2.2 = badReq ∧
    (connStep connInit emptyReg c5msg).2.1.peers = [("h2", "h2", 6000)] := by
  constructor <;> rfl

theorem C5_add_bad_request_witness :
    (hGet (extract_headers c5msg) titleKey).getD emptyS = emptyS ∧
    handle_add emptyReg (requestTokens c5msg) (extract_headers c5msg) =
      (emptyReg, badReq) :=
  ⟨by decide, C5_add_bad_request emptyReg (requestTokens c5msg)
    (extract_headers c5msg) (Or.inr (Or.inr (Or.inl (by decide))))⟩

/-- Claim C2 (amended): at teardown, `remove_peer` runs with the
connection's current identity values whenever all three were observed
(`is not None`), and afterwards the peer set no longer contains that
identity and no document record owned by it survives (so neither
`handle_lookup` nor `handle_list`, which read `rfc_index`, can return
one); if any of the three values was never observed, teardown leaves the
registry untouched.  Note the trigger is the three values being set, not
`peer_registered` — see the counterexample. -/
theorem C2_teardown_cleanup (cs : ConnState) (reg : Registry) (n h : String)
    (p : Int) (hn : cs.peer_name = some n) (hh : cs.peer_host = some h)
    (hp : cs.peer_port = some p) :
    connTeardown cs reg = remove_peer reg n h p ∧
    (n, h, p) ∉ (connTeardown cs reg).peers ∧
    (∀ r ∈ (connTeardown cs reg).rfc_index,
      ¬ (r.2.2.1 = n ∧ r.2.2.2.1 = h ∧ r.2.2.2.2 = p)) ∧
    (∀ cs2 : ConnState, ∀ reg2 : Registry,
      cs2.peer_name = none ∨ cs2.peer_host = none ∨ cs2.peer_port = none →
      connTeardown cs2 reg2 = reg2) := by
  have ht : connTeardown cs reg = remove_peer reg n h p := by
    unfold connTeardown
    rw [hn, hh, hp]
  refine ⟨ht, ?_, ?_, ?_⟩
  · rw [ht]
    simp [remove_peer, List.mem_filter]
  · rw [ht]
    intro r hr
    simp only [remove_peer, List.mem_filter] at hr
    have := hr.2
    simp only [Bool.not_eq_true', decide_eq_false_iff_not] at this
    exact this
  · intro cs2 reg2 h2
    unfold connTeardown
    rcases hx : cs2.peer_name with _ | a
    · rfl
    · rcases hy : cs2.peer_port with _ | b
      · rfl
      · rcases hz : cs2.peer_host with _ | c
        · rfl
        · rw [hx, hy, hz] at h2
          rcases h2 with h2 | h2 | h2 <;> exact Option.noConfusion h2

/-- Claim C2 is false as stated: after this single `ADD` with `Port: 0`
the connection never registered (`Port` value `0` is falsy), yet teardown
still mutates the registry (it removes the record the `ADD` inserted). -/
theorem C2_counterexample :
    (runConnMsgs connInit emptyReg [c2msg]).1.peer_registered = false ∧
    connTeardown (runConnMsgs connInit emptyReg [c2msg]).1
        (runConnMsgs connInit emptyReg [c2msg]).2 ≠
      (runConnMsgs connInit emptyReg [c2msg]).2 := by
  constructor
  · rfl
  · decide

theorem C2_teardown_cleanup_witness :
    connTeardown ⟨some ("h"), some 5, some ("n"), true⟩ ⟨[("n", "h", 5)], [(1, "T", "n", "h", 5)]⟩ =
      remove_peer ⟨[("n", "h", 5)], [(1, "T", "n", "h", 5)]⟩ "n" "h" 5 ∧
    ("n", "h", 5) ∉
      (connTeardown ⟨some ("h"), some 5, some ("n"), true⟩
        ⟨[("n", "h", 5)], [(1, "T", "n", "h", 5)]⟩).peers :=
  ⟨(C2_teardown_cleanup ⟨some ("h"), some 5, some ("n"), true⟩
      ⟨[("n", "h", 5)], [(1, "T", "n", "h", 5)]⟩ "n" "h" 5 rfl rfl rfl).1,
    (C2_teardown_cleanup ⟨some ("h"), some 5, some ("n"), true⟩
      ⟨[("n", "h", 5)], [(1, "T", "n", "h", 5)]⟩ "n" "h" 5 rfl rfl rfl).2.1⟩

/-- Claim C3: adding the identical `(number, title, owner)` tuple twice via
`handle_add` leaves the registry state of the first add unchanged, and the
registry then holds exactly one copy of the record (for any starting state
that, like every reachable one, holds at most one copy). -/
theorem C3_add_idempotent (reg : Registry) (s host name ports title : String)
    (num pn : Int) (hs2 : List (String × String))
    (hnum : pyInt? s = some num)
    (hhost : (hGet hs2 hostKey).getD emptyS = host) (hh0 : host ≠ emptyS)
    (hname : pyOr (hGet hs2 hostnameKey) host = name) (hn0 : name ≠ emptyS)
    (hport : (hGet hs2 portKey).getD emptyS = ports) (hp0 : ports ≠ emptyS)
    (hpn : pyInt? ports = some pn)
    (htitle : (hGet hs2 titleKey).getD emptyS = title) (ht0 : title ≠ emptyS)
    (hcnt : reg.rfc_index.count (num, title, name, host, pn) ≤ 1) :
    (handle_add (handle_add reg [rfcTok, s] hs2).1 [rfcTok, s] hs2).1 =
      (handle_add reg [rfcTok, s] hs2).1 ∧
    ((handle_add (handle_add reg [rfcTok, s] hs2).1 [rfcTok, s] hs2).1).rfc_index.count
      (num, title, name, host, pn) = 1 := by
  subst hhost hname hport htitle
  have hguard : ¬ (([rfcTok, s] : List String).length < 2 ∨
      ([rfcTok, s] : List String).headD emptyS ≠ rfcTok) := by simp
  have hs' : ([rfcTok, s] : List String).getD 1 emptyS = s := rfl
  set host := (hGet hs2 hostKey).getD emptyS with hH
  set name := pyOr (hGet hs2 hostnameKey) host with hN
  set ports := (hGet hs2 portKey).getD emptyS with hP
  set title := (hGet hs2 titleKey).getD emptyS with hT
  have hne : ¬ (host = emptyS ∨ ports = emptyS ∨ title = emptyS ∨ name = emptyS) := by
    rintro (h | h | h | h)
    exacts [hh0 h, hp0 h, ht0 h, hn0 h]
  have step : ∀ r : Registry, handle_add r [rfcTok, s] hs2 =
      (⟨if (name, host, pn) ∈ r.peers then r.peers else (name, host, pn) :: r.peers,
        if (num, title, name, host, pn) ∈ r.rfc_index then r.rfc_index
        else (num, title, name, host, pn) :: r.rfc_index⟩,
      ⟨200, "OK", fmtRecord (num, title, name, host, pn)⟩) := by
    intro r
    simp only [handle_add, hguard, if_false, hs', hnum, hne, hpn]
  have hmem1 : (num, title, name, host, pn) ∈ (handle_add reg [rfcTok, s] hs2).1.rfc_index := by
    rw [step reg]
    by_cases hm : (num, title, name, host, pn) ∈ reg.rfc_index
    · simp [hm]
    · simp [hm]
  have hpeer1 : (name, host, pn) ∈ (handle_add reg [rfcTok, s] hs2).1.peers := by
    rw [step reg]
    by_cases hm : (name, host, pn) ∈ reg.peers
    · simp [hm]
    · simp [hm]
  have hcnt1 : (handle_add reg [rfcTok, s] hs2).1.rfc_index.count
      (num, title, name, host, pn) = 1 := by
    rw [step reg]
    by_cases hm : (num, title, name, host, pn) ∈ reg.rfc_index
    · have := List.count_pos_iff.mpr hm
      simp only [hm, if_true]
      omega
    · simp only [hm, if_false]
      rw [List.count_cons_self, List.count_eq_zero.mpr hm]
  constructor
  · rw [step (handle_add reg [rfcTok, s] hs2).1]
    rw [if_pos hpeer1, if_pos hmem1]
  · rw [step (handle_add reg [rfcTok, s] hs2).1]
    simp only [hmem1, if_true]
    exact hcnt1

theorem C3_add_idempotent_witness :
    pyInt? ("7") = some 7 ∧
    (handle_add (handle_add emptyReg [rfcTok, "7"] c3hs).1 [rfcTok, "7"] c3hs).1 =
      (handle_add emptyReg [rfcTok, "7"] c3hs).1 ∧
    ((handle_add (handle_add emptyReg [rfcTok, "7"] c3hs).1 [rfcTok, "7"] c3hs).1).rfc_index.count
      (7, "T", "h", "h", 5) = 1 :=
  ⟨by decide,
    (C3_add_idempotent emptyReg ("7") "h" "h" "5" "T" 7 5 c3hs (by decide) (by decide)
      (by decide) (by decide) (by decide) (by decide) (by decide) (by decide)
      (by decide) (by decide) (by decide)).1,
    (C3_add_idempotent emptyReg ("7") "h" "h" "5" "T" 7 5 c3hs (by decide) (by decide)
      (by decide) (by decide) (by decide) (by decide) (by decide) (by decide)
      (by decide) (by decide) (by decide)).2⟩

/-- Claim C10: whenever `handle_add` answers `200 OK`, the echoed record's
owner identity has been inserted into the peer set (if it was absent) and
the record into the index, in the same critical section. -/
theorem C10_add_registers_owner (reg : Registry) (rp : List String)
    (hs2 : List (String × String))
    (h200 : (handle_add reg rp hs2).2.code = 200) :
    ∃ num title name host pn,
      (handle_add reg rp hs2).2.body = fmtRecord (num, title, name, host, pn) ∧
      (name, host, pn) ∈ (handle_add reg rp hs2).1.peers ∧
      (num, title, name, host, pn) ∈ (handle_add reg rp hs2).1.rfc_index := by
  rcases hout : handle_add reg rp hs2 with ⟨reg', resp⟩
  rw [hout] at h200
  revert hout
  simp only [handle_add]
  split
  · rintro ⟨rfl, rfl⟩
    exact absurd h200 (by simp [badReq])
  · split
    · rintro ⟨rfl, rfl⟩
      exact absurd h200 (by simp [badReq])
    · next num hnum =>
        split
        · rintro ⟨rfl, rfl⟩
          exact absurd h200 (by simp [badReq])
        · split
          · rintro ⟨rfl, rfl⟩
            exact absurd h200 (by simp [badReq])
          · next pn hport =>
              rintro ⟨rfl, rfl⟩
              refine ⟨num, _, _, _, pn, rfl, ?_, ?_⟩
              · dsimp only
                split
                · next hm => exact hm
                · exact List.mem_cons_self _ _
              · dsimp only
                split
                · next hm => exact hm
                · exact List.mem_cons_self _ _

theorem C10_add_registers_owner_witness :
    (handle_add emptyReg [rfcTok, "3"] c10hs).2.code = 200 ∧
    (∃ num title name host pn,
      (handle_add emptyReg [rfcTok, "3"] c10hs).2.body = fmtRecord (num, title, name, host, pn) ∧
      (name, host, pn) ∈ (handle_add emptyReg [rfcTok, "3"] c10hs).1.peers ∧
      (num, title, name, host, pn) ∈ (handle_add emptyReg [rfcTok, "3"] c10hs).1.rfc_index) :=
  ⟨by decide, C10_add_registers_owner emptyReg [rfcTok, "3"] c10hs (by decide)⟩

/-- Claim C4: `handle_lookup` answers with exactly the records whose number
equals the looked-up number, in registry order (most-recently-added first,
since `handle_add` prepends), and `404 Not Found` when no record
matches. -/
theorem C4_lookup_filter (reg : Registry) (s : String) (num : Int)
    (hs2 : List (String × String)) (hnum : pyInt? s = some num) :
    (∀ r, r ∈ reg.rfc_index.filter (fun r => r.1 = num) ↔
      r ∈ reg.rfc_index ∧ r.1 = num) ∧
    (reg.rfc_index.filter (fun r => r.1 = num)).Sublist reg.rfc_index ∧
    (reg.rfc_index.filter (fun r => r.1 = num) = [] →
      handle_lookup reg [rfcTok, s] hs2 = notFound404) ∧
    (reg.rfc_index.filter (fun r => r.1 = num) ≠ [] →
      handle_lookup reg [rfcTok, s] hs2 =
        ⟨200, "OK",
          joinCRLFs ((reg.rfc_index.filter (fun r => r.1 = num)).map fmtRecord)⟩) := by
  have hguard : ¬ (([rfcTok, s] : List String).length < 2 ∨
      ([rfcTok, s] : List String).headD emptyS ≠ rfcTok) := by simp
  have hs' : ([rfcTok, s] : List String).getD 1 emptyS = s := rfl
  have hl : handle_lookup reg [rfcTok, s] hs2 =
      (if ((reg.rfc_index.filter (fun r => r.1 = num)).map fmtRecord).isEmpty
        then notFound404
        else ⟨200, "OK",
          joinCRLFs ((reg.rfc_index.filter (fun r => r.1 = num)).map fmtRecord)⟩) := by
    simp only [handle_lookup, hguard, if_false, hs', hnum]
  refine ⟨?_, List.filter_sublist _, ?_, ?_⟩
  · intro r
    simp [List.mem_filter]
  · intro hempty
    rw [hl, hempty]
    rfl
  · intro hne
    have hb : ¬ ((reg.rfc_index.filter (fun r => r.1 = num)).map fmtRecord).isEmpty = true := by
      simp only [List.isEmpty_iff, List.map_eq_nil_iff]
      exact hne
    rw [hl, if_neg hb]

theorem C4_lookup_filter_witness :
    pyInt? ("7") = some 7 ∧
    handle_lookup ⟨[], [(7, "T", "n", "h", 5), (8, "U", "n", "h", 5), (7, "V", "m", "g", 6)]⟩
        [rfcTok, "7"] [] =
      ⟨200, "OK", "RFC 7 T n h 5\r\nRFC 7 V m g 6"⟩ :=
  ⟨by decide, by
    have := (C4_lookup_filter
      ⟨[], [(7, "T", "n", "h", 5), (8, "U", "n", "h", 5), (7, "V", "m", "g", 6)]⟩
      "7" 7 [] (by decide)).2.2.2 (by decide)
    rw [this]
    rfl⟩

theorem handle_add_code (reg : Registry) (rp : List String)
    (hs2 : List (String × String)) :
    (handle_add reg rp hs2).2.code = 200 ∨ (handle_add reg rp hs2).2.code = 400 := by
  simp only [handle_add]
  split
  · right; rfl
  · split
    · right; rfl
    · split
      · right; rfl
      · split
        · right; rfl
        · left; rfl

theorem handle_lookup_code (reg : Registry) (rp : List String)
    (hs2 : List (String × String)) :
    (handle_lookup reg rp hs2).code = 200 ∨ (handle_lookup reg rp hs2).code = 400 ∨
      (handle_lookup reg rp hs2).code = 404 := by
  simp only [handle_lookup]
  split
  · right; left; rfl
  · split
    · right; left; rfl
    · split
      · right; right; rfl
      · left; rfl

/-- Claim C9: the version token is the last whitespace token of the request
line, so any request line with at least three tokens ending in the
protocol token passes the version gate and is dispatched (never `505`);
in particular `ADD RFC PCP-CI/1.0` with a missing number is answered
`400 Bad Request`, not `505`, even with valid headers. -/
theorem C9_last_token_version :
    (∀ reg : Registry, ∀ req : String, 3 ≤ (requestTokens req).length →
      ((requestTokens req).getLast?).getD emptyS = PROTOCOL_VERSION →
      (process_request reg req).2.code ≠ 505) ∧
    process_request emptyReg c9msg = (emptyReg, badReq) := by
  constructor
  · intro reg req hlen hver
    simp only [process_request]
    split
    · simp [badReq]
    · split
      · simp [badReq]
      · split
        · next hne => exact absurd hver hne
        · split
          · rcases handle_add_code reg ((requestTokens req).tail.take 2)
              (extract_headers req) with h | h <;> simp [h]
          · split
            · rcases handle_lookup_code reg ((requestTokens req).tail.take 2)
                (extract_headers req) with h | h | h <;> simp [h]
            · split
              · simp [handle_list]
              · simp [badReq]
  · rfl

theorem C9_last_token_version_witness :
    3 ≤ (requestTokens c9msg).length ∧
    (process_request emptyReg c9msg).2.code ≠ 505 :=
  ⟨by decide, C9_last_token_version.1 emptyReg c9msg (by decide) (by decide)⟩

theorem utf8Len_foldl (l : List Char) (n : Nat) :
    l.foldl (fun n c => n + c.utf8Size) n = n + String.utf8ByteSize.go l := by
  induction l generalizing n with
  | nil => simp [String.utf8ByteSize.go]
  | cons c cs ih =>
    simp only [List.foldl_cons, String.utf8ByteSize.go, ih]
    omega

/-- Claim C7: every directory-server response is the status line, the five
standard headers, a blank line, then the optional body, and its
`Content-Length` value is the body's UTF-8 byte length (`utf8ByteSize`),
not its character count. -/
theorem C7_response_format (ts osi : String) (r : Resp) :
    build_response ts osi r = respSpecFormat ts osi r ∧
    utf8Len r.body = r.body.utf8ByteSize := by
  constructor
  · by_cases hb : r.body = emptyS
    · simp only [build_response, respSpecFormat, hb, if_pos, ne_eq, not_true_eq_false,
        if_false, joinCRLFs]
      apply congrArg String.mk
      simp [String.data_append, CRLFs, emptyS]
    · simp only [build_response, respSpecFormat, hb, ne_eq, not_false_eq_true, if_true,
        if_neg hb, joinCRLFs]
      apply congrArg String.mk
      simp [String.data_append, CRLFs]
  · rcases hm : r.body with ⟨l⟩
    simp only [utf8Len, String.utf8ByteSize]
    rw [utf8Len_foldl]
    simp

/-- Claim C8: a fetch whose response has no header/body separator, or whose
status line does not contain `200 OK`, returns failure and leaves the
local store untouched. -/
theorem C8_fetch_failure_frame (store : Int → Option String) (n : Int)
    (resp : String)
    (h : fetchSplit resp.data = none ∨
      (∀ sl, fetchStatusLine resp.data = some sl → containsSub okChars sl = false)) :
    get_rfc_store store n resp = (store, false) := by
  unfold get_rfc_store parse_fetch
  rcases h with h | h
  · rw [h]
  · cases hsp : fetchSplit resp.data with
    | none => rfl
    | some is =>
      cases hsl : pySplitlinesHead (resp.data.take is.1) with
      | none => simp [hsl]
      | some sl =>
        have hko := h sl (by simp [fetchStatusLine, hsp, hsl])
        simp [hsl, hko]

theorem C8_fetch_failure_frame_witness :
    fetchSplit c8resp.data = none ∧
    get_rfc_store (fun _ => none) 3 c8resp = (fun _ => none, false) :=
  ⟨by decide, C8_fetch_failure_frame (fun _ => none) 3 c8resp (Or.inl (by decide))⟩

